import Mathlib

/-!
Shallow embedding of `scripts/wand_probe.py`: the startup-observation state
machine (`quick_probe`'s polling loop with its two debounce timers), the
process-snapshot bucketing (`inspect_state`), the version-entry parser
(`parse_version_entry`), and the run orchestrator (`main`).

Modelling conventions:
* Wall-clock times and thresholds are rationals (`ℚ`); the Python floats are
  only compared and subtracted, never rounded, so `ℚ` preserves the logic.
  Each pass through the `while` body reads `time.time()` several times within
  microseconds; the embedding gives every poll cycle one timestamp `now`,
  and a probe is driven by a finite trace of `(now, snapshot)` cycles.
* Python's `if renderer_since and ...` tests float truthiness: `None` and
  `0.0` are both falsy.  `timerFires` reproduces that test exactly.
* A process's command line is modelled as the already-decoded text (the
  source replaces NUL bytes with spaces before matching); an unreadable
  `/proc/<pid>/cmdline` is a distinct constructor.
-/

deriving instance DecidableEq for Except

namespace WandProbe

/-! ### List-level string helpers (Python `in`, `.lower()`, `.strip()`, `.replace()`) -/

/-- Does `hay` start with `needle`? (helper for substring search). -/
def listStarts (needle hay : List Char) : Bool :=
  match needle, hay with
  | [], _ => true
  | _ :: _, [] => false
  | a :: as, b :: bs => a == b && listStarts as bs

/-- Does `hay` contain `needle` as a contiguous run? (Python `needle in hay`). -/
def hasSub (needle : List Char) : List Char → Bool
  | [] => needle.isEmpty
  | c :: rest => listStarts needle (c :: rest) || hasSub needle rest

/-- Python `needle in hay` on strings. -/
def strContains (hay needle : String) : Bool :=
  hasSub needle.data hay.data

/-- Python `str.lower()` (ASCII case fold, which is all the source needs). -/
def pyLower (s : String) : String :=
  String.mk (s.data.map Char.toLower)

/-- Python `str.strip()`: drop whitespace from both ends. -/
def pyStrip (s : String) : String :=
  String.mk (((s.data.dropWhile Char.isWhitespace).reverse.dropWhile
    Char.isWhitespace).reverse)

/-- `summary.replace(",", ";")` from `main`'s record printing. -/
def sanitize (s : String) : String :=
  String.mk (s.data.map (fun c => if c = ',' then ';' else c))

/-! ### `parse_version_entry` -/

/-- Python `entry.split(":", 1)`: split at the first colon, `none` when the
string has no colon (the source's `":" not in entry` test). -/
def splitOnce : List Char → Option (List Char × List Char)
  | [] => none
  | c :: t =>
    if c = ':' then some ([], t)
    else
      match splitOnce t with
      | none => none
      | some (a, b) => some (c :: a, b)

/-- `parse_version_entry`: split `kind:version` at the first colon, strip and
lowercase the kind, strip the version, validate both. -/
def parse_version_entry (entry : String) : Except String (String × String) :=
  match splitOnce entry.data with
  | none => .error ("invalid version entry \x27" ++ entry ++ "\x27, expected kind:version")
  | some (k, v) =>
    let kind := pyLower (pyStrip (String.mk k))
    let version := pyStrip (String.mk v)
    if (kind == "wand" || kind == "wemod") = false then
      .error ("invalid kind \x27" ++ kind ++ "\x27 in \x27" ++ entry ++ "\x27, expected wand or wemod")
    else if version == "" then
      .error ("missing version in \x27" ++ entry ++ "\x27")
    else
      .ok (kind, version)

/-! ### `inspect_state` -/

/-- One `/proc` scan's per-role process counts (`inspect_state`'s dict). -/
structure RoleCounts where
  main : ℕ
  renderer : ℕ
  gpu : ℕ
  utility : ℕ
deriving DecidableEq

/-- A `/proc/<pid>` entry as `inspect_state` sees it: either the cmdline
could not be read (process already exited), or its decoded text
(NUL bytes already replaced by spaces). -/
inductive ProcEntry
  | unreadable
  | cmdline (raw : String)
deriving DecidableEq

/-- `"wand.exe" in text or "wemod.exe" in text` (text already lowercased). -/
def matchesApp (text : String) : Bool :=
  strContains text "wand.exe" || strContains text "wemod.exe"

/-- One iteration of `inspect_state`'s scan loop: skip unreadable and empty
command lines, skip non-matching processes, otherwise bump exactly one role
count chosen by the renderer/gpu/utility/main precedence chain. -/
def inspectStep (st : RoleCounts) (e : ProcEntry) : RoleCounts :=
  match e with
  | .unreadable => st
  | .cmdline raw =>
    if raw.isEmpty then st
    else
      let text := pyLower raw
      if matchesApp text = false then st
      else if strContains text "--type=renderer" then { st with renderer := st.renderer + 1 }
      else if strContains text "--type=gpu-process" then { st with gpu := st.gpu + 1 }
      else if strContains text "--type=utility" then { st with utility := st.utility + 1 }
      else { st with main := st.main + 1 }

/-- `inspect_state`: fold the scan step over the process table, starting from
all-zero counts. -/
def inspect_state (procs : List ProcEntry) : RoleCounts :=
  procs.foldl inspectStep ⟨0, 0, 0, 0⟩

/-- Total number of processes counted in a snapshot. -/
def total (s : RoleCounts) : ℕ :=
  s.main + s.renderer + s.gpu + s.utility

/-- Process roles, for stating the bucketing contract. -/
inductive Role
  | main
  | renderer
  | gpu
  | utility
deriving DecidableEq

/-- The role the spec's Snapshot-Source contract (§4.1) assigns to one
process-table entry: skip unreadable/empty/non-matching entries, otherwise
the first marker in the precedence list renderer, gpu-process, utility wins,
with `main` as the fallback.  Stated separately from `inspectStep` so that
the source's fold can be proved to refine it. -/
def specRole (e : ProcEntry) : Option Role :=
  match e with
  | .unreadable => none
  | .cmdline raw =>
    if raw.isEmpty then none
    else
      let text := pyLower raw
      if matchesApp text = false then none
      else if strContains text "--type=renderer" then some .renderer
      else if strContains text "--type=gpu-process" then some .gpu
      else if strContains text "--type=utility" then some .utility
      else some .main

/-- Apply a bucketing decision to a running count: skip, or bump the one
chosen role. -/
def applyRole (st : RoleCounts) : Option Role → RoleCounts
  | none => st
  | some .main => { st with main := st.main + 1 }
  | some .renderer => { st with renderer := st.renderer + 1 }
  | some .gpu => { st with gpu := st.gpu + 1 }
  | some .utility => { st with utility := st.utility + 1 }

/-! ### The classifier loop inside `quick_probe` -/

/-- The three timing parameters of `quick_probe`. -/
structure ProbeParams where
  observeTimeout : ℚ
  rendererStable : ℚ
  blackStable : ℚ
deriving DecidableEq

/-- `state["renderer"] > 0`. -/
def rendererCond (s : RoleCounts) : Bool :=
  decide (0 < s.renderer)

/-- `main > 0 and gpu > 0 and utility > 0 and renderer == 0`. -/
def blackCond (s : RoleCounts) : Bool :=
  decide (0 < s.main) && decide (0 < s.gpu) && decide (0 < s.utility) &&
    decide (s.renderer = 0)

/-- The per-cycle arm/disarm discipline of one debounce timer:
`if cond: (arm at now if currently None) else: disarm`. -/
def armTimer (cond : Bool) (now : ℚ) (t : Option ℚ) : Option ℚ :=
  if cond then
    match t with
    | none => some now
    | some a => some a
  else none

/-- `if t and (now - t) >= threshold`: Python float truthiness (both `None`
and an arm time of exactly `0.0` are falsy) followed by the threshold test. -/
def timerFires (threshold now : ℚ) (t : Option ℚ) : Bool :=
  match t with
  | none => false
  | some a => decide (a ≠ 0) && decide (threshold ≤ now - a)

/-- Probe verdicts: the status strings returned by `quick_probe`, with the
role-count snapshot that the detail text interpolates (or the error text). -/
inductive Verdict
  | STARTED (state : RoleCounts)
  | BLACK_PATTERN (state : RoleCounts)
  | TIMEOUT (state : RoleCounts)
  | ERROR (detail : String)
deriving DecidableEq

/-- The two verdict checks at the bottom of the loop body, in source order:
renderer first, black-pattern second, else no verdict this cycle. -/
def checkVerdicts (p : ProbeParams) (now : ℚ) (state : RoleCounts)
    (rs bs : Option ℚ) : Option Verdict :=
  if timerFires p.rendererStable now rs then some (.STARTED state)
  else if timerFires p.blackStable now bs then some (.BLACK_PATTERN state)
  else none

/-- Outcome of running the `while` body over a trace of poll cycles: either
the loop returned (`done`), or the supplied cycles ran out with the timers in
the given states (`ran`). -/
inductive LoopOut
  | done (v : Verdict)
  | ran (rendererSince blackSince : Option ℚ)
deriving DecidableEq

/-- The `while time.time() - start < observe_timeout` loop of `quick_probe`,
driven by a trace of `(now, snapshot)` poll cycles.  A guard failure returns
`TIMEOUT` carrying the fresh post-loop snapshot `finalSnapshot`. -/
def runCycles (p : ProbeParams) (start : ℚ) (finalSnapshot : RoleCounts) :
    Option ℚ → Option ℚ → List (ℚ × RoleCounts) → LoopOut
  | rs, bs, [] => .ran rs bs
  | rs, bs, (now, state) :: rest =>
    if now - start < p.observeTimeout then
      let rs2 := armTimer (rendererCond state) now rs
      let bs2 := armTimer (blackCond state) now bs
      match checkVerdicts p now state rs2 bs2 with
      | some v => .done v
      | none => runCycles p start finalSnapshot rs2 bs2 rest
    else .done (.TIMEOUT finalSnapshot)

/-- The classifier loop as `quick_probe` runs it: timers start unarmed; if
the trace is exhausted without a verdict the probe is still inside its
budget, and (as at a guard failure) the verdict on the trace is `TIMEOUT`
with the final snapshot. -/
def probeLoop (p : ProbeParams) (start : ℚ) (trace : List (ℚ × RoleCounts))
    (finalSnapshot : RoleCounts) : Verdict :=
  match runCycles p start finalSnapshot none none trace with
  | .done v => v
  | .ran _ _ => .TIMEOUT finalSnapshot

/-- The detail text of the missing-executable early return. -/
def missingExeMsg : String := "WeMod.exe missing after install"

/-- What one `quick_probe` call did: its verdict, whether it launched the
child process, and whether its own `finally` teardown
(`proc.kill(); kill_wemod_processes()`) ran. -/
structure ProbeRun where
  verdict : Verdict
  launched : Bool
  teardownInvoked : Bool
deriving DecidableEq

/-- `quick_probe`: if `WeMod.exe` is absent the function returns `ERROR`
before `subprocess.Popen` and before entering the `try`, so nothing is
launched and the `finally` teardown does not run; otherwise the child is
launched, the classifier loop runs, and the `finally` teardown runs on the
way out. -/
def quick_probe (exeExists : Bool) (p : ProbeParams) (start : ℚ)
    (trace : List (ℚ × RoleCounts)) (finalSnapshot : RoleCounts) : ProbeRun :=
  if exeExists = false then
    ⟨.ERROR missingExeMsg, false, false⟩
  else
    ⟨probeLoop p start trace finalSnapshot, true, true⟩

/-! ### The orchestrator `main` -/

/-- One parsed `kind:version` request. -/
structure VersionRequest where
  kind : String
  version : String
deriving DecidableEq

/-- The externally-determined fate of the three fallible steps of one loop
iteration of `main`: `download_if_needed` and `install_nupkg` may raise
(carrying the exception text), and `quick_probe` either raises or returns a
`(status, summary)` pair. -/
structure ReqEnv where
  download : Except String Unit
  install : Except String Unit
  probe : Except String (String × String)
deriving DecidableEq

/-- One printed CSV record (`kind,version,status,summary`). -/
structure ResultRecord where
  kind : String
  version : String
  status : String
  summary : String
deriving DecidableEq

/-- The `try/except` body of one iteration of `main`'s loop: the first step
that raises is caught and becomes an `ERROR` record for this version; the
summary (or exception text) has its commas replaced by semicolons. -/
def tryBody (q : VersionRequest) (env : ReqEnv) : ResultRecord :=
  match env.download with
  | .error e => ⟨q.kind, q.version, "ERROR", sanitize e⟩
  | .ok _ =>
    match env.install with
    | .error e => ⟨q.kind, q.version, "ERROR", sanitize e⟩
    | .ok _ =>
      match env.probe with
      | .error e => ⟨q.kind, q.version, "ERROR", sanitize e⟩
      | .ok (status, summary) => ⟨q.kind, q.version, status, sanitize summary⟩

/-- Observable events of one run of `main`: calls to
`kill_wemod_processes` and printed records. -/
inductive Event
  | teardown
  | record (r : ResultRecord)
deriving DecidableEq

/-- `main`'s loop: every iteration first calls `kill_wemod_processes`, then
produces exactly one record (normal or caught-exception); one final
`kill_wemod_processes` follows the loop. -/
def mainEvents : List (VersionRequest × ReqEnv) → List Event
  | [] => [.teardown]
  | qe :: rest => .teardown :: .record (tryBody qe.1 qe.2) :: mainEvents rest

/-- The ordered sequence of records `main` prints (header line aside). -/
def mainRecords (reqs : List (VersionRequest × ReqEnv)) : List ResultRecord :=
  (mainEvents reqs).filterMap (fun e =>
    match e with
    | .record r => some r
    | .teardown => none)

/-! ### Concrete values used by witnesses -/

/-- The default thresholds of the CLI (`--observe-timeout 20`,
`--renderer-stable-sec 2`, `--black-pattern-sec 2`). -/
def pDefault : ProbeParams := ⟨20, 2, 2⟩

/-- An all-quiet snapshot. -/
def quiet : RoleCounts := ⟨0, 0, 0, 0⟩

/-- A snapshot with a single renderer process. -/
def rendererOnly : RoleCounts := ⟨0, 1, 0, 0⟩

/-- The black-pattern snapshot: main, gpu, utility present, no renderer. -/
def blackSnap : RoleCounts := ⟨1, 0, 1, 1⟩

/-! ### Basic facts about the conditions and the loop -/

/-- The two debounce conditions are mutually exclusive: a snapshot with a
renderer process is never a black-pattern snapshot. -/
theorem blackCond_eq_false_of_rendererCond (s : RoleCounts)
    (h : rendererCond s = true) : blackCond s = false := by
  simp only [rendererCond, decide_eq_true_eq] at h
  simp only [blackCond, Bool.and_eq_false_iff, decide_eq_false_iff_not]
  omega

/-- A black-pattern snapshot has no renderer process. -/
theorem rendererCond_eq_false_of_blackCond (s : RoleCounts)
    (h : blackCond s = true) : rendererCond s = false := by
  simp only [blackCond, Bool.and_eq_true, decide_eq_true_eq] at h
  simp only [rendererCond, decide_eq_false_iff_not]
  omega

/-- Splitting a trace: the loop either returns within the first chunk, or
runs through it and continues on the second with the timers it reached. -/
theorem runCycles_append (p : ProbeParams) (start : ℚ) (fsv : RoleCounts) :
    ∀ (pre tail : List (ℚ × RoleCounts)) (rs bs : Option ℚ),
      runCycles p start fsv rs bs (pre ++ tail) =
        match runCycles p start fsv rs bs pre with
        | .done v => .done v
        | .ran rs2 bs2 => runCycles p start fsv rs2 bs2 tail := by
  intro pre
  induction pre with
  | nil => intro tail rs bs; simp [runCycles]
  | cons c rest ih =>
    intro tail rs bs
    obtain ⟨now, state⟩ := c
    by_cases hg : now - start < p.observeTimeout
    · cases hv : checkVerdicts p now state
        (armTimer (rendererCond state) now rs) (armTimer (blackCond state) now bs) with
      | none => simp [runCycles, hg, hv, ih]
      | some v => simp [runCycles, hg, hv]
    · simp [runCycles, hg]

/-- One loop iteration inside the time budget: arm/disarm both timers, then
evaluate the verdict checks. -/
theorem runCycles_cons_of_guard (p : ProbeParams) (start : ℚ) (fsv : RoleCounts)
    (rs bs : Option ℚ) (now : ℚ) (state : RoleCounts)
    (rest : List (ℚ × RoleCounts)) (hg : now - start < p.observeTimeout) :
    runCycles p start fsv rs bs ((now, state) :: rest) =
      match checkVerdicts p now state (armTimer (rendererCond state) now rs)
          (armTimer (blackCond state) now bs) with
      | some v => .done v
      | none => runCycles p start fsv (armTimer (rendererCond state) now rs)
          (armTimer (blackCond state) now bs) rest := by
  simp [runCycles, hg]

/-- A cycle whose timestamp exhausts the budget ends the loop with a
`TIMEOUT` verdict carrying the fresh final snapshot. -/
theorem runCycles_cons_of_timeout (p : ProbeParams) (start : ℚ)
    (fsv : RoleCounts) (rs bs : Option ℚ) (now : ℚ) (state : RoleCounts)
    (rest : List (ℚ × RoleCounts)) (hg : ¬now - start < p.observeTimeout) :
    runCycles p start fsv rs bs ((now, state) :: rest) =
      .done (.TIMEOUT fsv) := by
  simp [runCycles, hg]

/-- If the loop runs a trace to exhaustion, any armed timer was armed either
before the trace began or at the timestamp of one of its cycles. -/
theorem runCycles_ran_arm_mem (p : ProbeParams) (start : ℚ) (fsv : RoleCounts) :
    ∀ (trace : List (ℚ × RoleCounts)) (rs bs rs2 bs2 : Option ℚ),
      runCycles p start fsv rs bs trace = .ran rs2 bs2 →
      (∀ a, rs2 = some a → rs = some a ∨ a ∈ trace.map Prod.fst) ∧
      (∀ b, bs2 = some b → bs = some b ∨ b ∈ trace.map Prod.fst) := by
  intro trace
  induction trace with
  | nil =>
    intro rs bs rs2 bs2 h
    simp only [runCycles, LoopOut.ran.injEq] at h
    constructor
    · intro a ha; left; rw [h.1]; exact ha
    · intro b hb; left; rw [h.2]; exact hb
  | cons c rest ih =>
    intro rs bs rs2 bs2 h
    obtain ⟨now, state⟩ := c
    by_cases hg : now - start < p.observeTimeout
    · cases hv : checkVerdicts p now state
        (armTimer (rendererCond state) now rs) (armTimer (blackCond state) now bs) with
      | some v => simp [runCycles, hg, hv] at h
      | none =>
        simp only [runCycles, hg, if_true, hv] at h
        obtain ⟨ihr, ihb⟩ := ih _ _ _ _ h
        constructor
        · intro a ha
          rcases ihr a ha with h1 | h1
          · by_cases hc : rendererCond state = true
            · cases rs with
              | none =>
                simp only [armTimer, hc, if_true, Option.some.injEq] at h1
                right
                rw [List.map_cons]
                exact h1 ▸ List.mem_cons_self _ _
              | some x =>
                simp only [armTimer, hc, if_true, Option.some.injEq] at h1
                left
                rw [h1]
            · simp [armTimer, hc] at h1
          · right
            rw [List.map_cons]
            exact List.mem_cons_of_mem _ h1
        · intro b hb
          rcases ihb b hb with h1 | h1
          · by_cases hc : blackCond state = true
            · cases bs with
              | none =>
                simp only [armTimer, hc, if_true, Option.some.injEq] at h1
                right
                rw [List.map_cons]
                exact h1 ▸ List.mem_cons_self _ _
              | some x =>
                simp only [armTimer, hc, if_true, Option.some.injEq] at h1
                left
                rw [h1]
            · simp [armTimer, hc] at h1
          · right
            rw [List.map_cons]
            exact List.mem_cons_of_mem _ h1
    · simp [runCycles, hg] at h

/-- C4.  The verdict evaluation of one poll cycle checks the renderer timer
strictly before the black-pattern timer: whenever both timers pass their
firing tests in the same cycle, the emitted verdict is `STARTED`, never
`BLACK_PATTERN`. -/
theorem C4_renderer_precedence (p : ProbeParams) (now : ℚ) (state : RoleCounts)
    (rs bs : Option ℚ)
    (hr : timerFires p.rendererStable now rs = true)
    (_hb : timerFires p.blackStable now bs = true) :
    checkVerdicts p now state rs bs = some (.STARTED state) ∧
      ∀ s2, checkVerdicts p now state rs bs ≠ some (.BLACK_PATTERN s2) := by
  refine ⟨by simp [checkVerdicts, hr], ?_⟩
  intro s2
  simp [checkVerdicts, hr]

/-- A timer armed at time 1 with threshold 2 fires at time 10. -/
theorem fires_two_ten_one : timerFires 2 10 (some 1) = true := by
  simp only [timerFires, Bool.and_eq_true, decide_eq_true_eq]
  norm_num

/-- Witness for C4: concrete armed-and-crossed timers on both sides. -/
theorem C4_renderer_precedence_witness :
    checkVerdicts pDefault 10 quiet (some 1) (some 1) = some (.STARTED quiet) :=
  (C4_renderer_precedence pDefault 10 quiet (some 1) (some 1)
    fires_two_ten_one fires_two_ten_one).1

/-- C9.  An arm timestamp of exactly `0` is falsy in the source's
`if timer and (now - timer) >= threshold` tests, so even when the elapsed
time meets both thresholds, neither verdict check fires on that cycle. -/
theorem C9_zero_arm_time_unarmed (p : ProbeParams) (now : ℚ) (state : RoleCounts)
    (_hr : p.rendererStable ≤ now - 0) (_hb : p.blackStable ≤ now - 0) :
    timerFires p.rendererStable now (some 0) = false ∧
      timerFires p.blackStable now (some 0) = false ∧
      checkVerdicts p now state (some 0) (some 0) = none := by
  refine ⟨by simp [timerFires], by simp [timerFires], ?_⟩
  simp [checkVerdicts, timerFires]

/-- The default 2-second threshold is exceeded by time 10 even from arm
time 0. -/
theorem two_le_ten_sub_zero : (2 : ℚ) ≤ 10 - 0 := by norm_num

/-! ### `inspect_state` refines the spec's bucketing contract -/

/-- The source's scan step performs exactly the spec's bucketing decision. -/
theorem inspectStep_eq_applyRole (st : RoleCounts) (e : ProcEntry) :
    inspectStep st e = applyRole st (specRole e) := by
  cases e with
  | unreadable => rfl
  | cmdline raw =>
    simp only [inspectStep, specRole]
    split_ifs <;> rfl

/-- Folding the scan step counts, per role, exactly the entries the spec
assigns that role, and in total exactly the counted entries. -/
theorem foldl_inspectStep_counts (procs : List ProcEntry) :
    ∀ st : RoleCounts,
      (procs.foldl inspectStep st).renderer
          = st.renderer + procs.countP (fun e => specRole e == some Role.renderer) ∧
      (procs.foldl inspectStep st).gpu
          = st.gpu + procs.countP (fun e => specRole e == some Role.gpu) ∧
      (procs.foldl inspectStep st).utility
          = st.utility + procs.countP (fun e => specRole e == some Role.utility) ∧
      (procs.foldl inspectStep st).main
          = st.main + procs.countP (fun e => specRole e == some Role.main) ∧
      total (procs.foldl inspectStep st)
          = total st + procs.countP (fun e => (specRole e).isSome) := by
  induction procs with
  | nil => intro st; simp [total]
  | cons e rest ih =>
    intro st
    have h := ih (inspectStep st e)
    rw [inspectStep_eq_applyRole] at h
    simp only [List.foldl_cons, List.countP_cons, inspectStep_eq_applyRole]
    cases hrole : specRole e with
    | none =>
      simp only [hrole, applyRole] at h ⊢
      simp only [Option.isSome_none]
      refine ⟨?_, ?_, ?_, ?_, ?_⟩ <;> simp [h.1, h.2.1, h.2.2.1, h.2.2.2.1, h.2.2.2.2]
    | some r =>
      cases r <;>
        · simp only [hrole, applyRole] at h ⊢
          simp only [Option.isSome_some]
          obtain ⟨h1, h2, h3, h4, h5⟩ := h
          simp only [total] at h5 ⊢
          refine ⟨?_, ?_, ?_, ?_, ?_⟩ <;> simp [h1, h2, h3, h4, h5, total] <;> omega

/-- C8.  `inspect_state` buckets each readable, non-empty, case-insensitively
matching command line into exactly one role by the renderer, gpu-process,
utility, main precedence (each per-role count equals the number of entries
the spec's contract assigns that role), skips unreadable entries silently,
counts one process per counted entry in total, and all four counts are
non-negative. -/
theorem C8_inspect_state_bucketing (procs : List ProcEntry) :
    (inspect_state procs).renderer
        = procs.countP (fun e => specRole e == some Role.renderer) ∧
    (inspect_state procs).gpu
        = procs.countP (fun e => specRole e == some Role.gpu) ∧
    (inspect_state procs).utility
        = procs.countP (fun e => specRole e == some Role.utility) ∧
    (inspect_state procs).main
        = procs.countP (fun e => specRole e == some Role.main) ∧
    total (inspect_state procs) = procs.countP (fun e => (specRole e).isSome) ∧
    specRole .unreadable = none ∧
    0 ≤ (inspect_state procs).main ∧ 0 ≤ (inspect_state procs).renderer ∧
    0 ≤ (inspect_state procs).gpu ∧ 0 ≤ (inspect_state procs).utility := by
  have h := foldl_inspectStep_counts procs ⟨0, 0, 0, 0⟩
  simp only [inspect_state]
  obtain ⟨h1, h2, h3, h4, h5⟩ := h
  refine ⟨by simpa using h1, by simpa using h2, by simpa using h3,
    by simpa using h4, ?_, rfl,
    Nat.zero_le _, Nat.zero_le _, Nat.zero_le _, Nat.zero_le _⟩
  simpa [total] using h5

/-- Witness for C9: with the default 2-second thresholds and `now = 10`,
both elapsed-time tests would pass, yet no verdict is emitted. -/
theorem C9_zero_arm_time_unarmed_witness :
    checkVerdicts pDefault 10 quiet (some 0) (some 0) = none :=
  (C9_zero_arm_time_unarmed pDefault 10 quiet
    two_le_ten_sub_zero two_le_ten_sub_zero).2.2

/-! ### `parse_version_entry` -/

/-- A colon-free prefix is passed over by the first-colon split. -/
theorem splitOnce_append (a b : List Char) (h : ∀ c ∈ a, c ≠ ':') :
    splitOnce (a ++ ':' :: b) = some (a, b) := by
  induction a with
  | nil => simp [splitOnce]
  | cons c rest ih =>
    have hc : c ≠ ':' := h c (List.mem_cons_self _ _)
    have hrest : ∀ x ∈ rest, x ≠ ':' := fun x hx => h x (List.mem_cons_of_mem _ hx)
    simp [splitOnce, hc, ih hrest]

/-- A string without a colon fails the split (the source's
`":" not in entry` test). -/
theorem splitOnce_eq_none (l : List Char) (h : ∀ c ∈ l, c ≠ ':') :
    splitOnce l = none := by
  induction l with
  | nil => rfl
  | cons c rest ih =>
    have hc : c ≠ ':' := h c (List.mem_cons_self _ _)
    have hrest : ∀ x ∈ rest, x ≠ ':' := fun x hx => h x (List.mem_cons_of_mem _ hx)
    simp [splitOnce, hc, ih hrest]

/-- Counterexample to C10 as stated: the version part is NOT returned
verbatim past the first colon — surrounding whitespace is stripped.  On
`"wand: 1.0"` the text past the first colon is `" 1.0"`, but the parser
returns `"1.0"`. -/
theorem C10_version_not_verbatim_counterexample :
    parse_version_entry "wand: 1.0" = .ok ("wand", "1.0") ∧
      (" 1.0" : String) ≠ "1.0" ∧
      parse_version_entry "wand: 1.0" ≠ .ok ("wand", " 1.0") := by
  refine ⟨by decide, by decide, by decide⟩

/-- C10 (amended).  `parse_version_entry` splits an entry at the first colon
only, so the version may itself contain colons, which are preserved; the
version is whitespace-stripped (not verbatim) and the kind is
whitespace-stripped and lowercased before validation, so `" WAND :1.0"` is
accepted; an entry with no colon, a kind outside wand/wemod, or a version
empty after stripping is rejected. -/
theorem C10_parse_version_entry_amended :
    (∀ a b : List Char, (∀ c ∈ a, c ≠ ':') →
        (pyLower (pyStrip (String.mk a)) = "wand" ∨
          pyLower (pyStrip (String.mk a)) = "wemod") →
        pyStrip (String.mk b) ≠ "" →
        parse_version_entry (String.mk (a ++ ':' :: b)) =
          .ok (pyLower (pyStrip (String.mk a)), pyStrip (String.mk b))) ∧
    (∀ s : String, (∀ c ∈ s.data, c ≠ ':') →
        ∃ msg, parse_version_entry s = .error msg) ∧
    parse_version_entry " WAND :1.0" = .ok ("wand", "1.0") ∧
    parse_version_entry "wand:1:0:x" = .ok ("wand", "1:0:x") ∧
    (∃ msg, parse_version_entry "foo:1.0" = .error msg) ∧
    (∃ msg, parse_version_entry "wand:  " = .error msg) := by
  refine ⟨?_, ?_, by decide, by decide,
    ⟨"invalid kind \x27foo\x27 in \x27foo:1.0\x27, expected wand or wemod", by decide⟩,
    ⟨"missing version in \x27wand:  \x27", by decide⟩⟩
  · intro a b hnc hkind hver
    unfold parse_version_entry
    rw [show (String.mk (a ++ ':' :: b)).data = a ++ ':' :: b from rfl,
      splitOnce_append a b hnc]
    rcases hkind with h | h <;> simp [h, hver]
  · intro s hnc
    unfold parse_version_entry
    rw [splitOnce_eq_none s.data hnc]
    exact ⟨_, rfl⟩

/-- Witness for C10 (amended): the general split/strip clause applied to a
concrete mixed-case, colon-bearing entry. -/
theorem C10_parse_version_entry_amended_witness :
    parse_version_entry (String.mk ((" WeMod ").data ++ ':' :: ("1:2 ").data)) =
      .ok (pyLower (pyStrip (String.mk (" WeMod ").data)),
        pyStrip (String.mk ("1:2 ").data)) :=
  C10_parse_version_entry_amended.1 (" WeMod ").data ("1:2 ").data
    (by decide) (by decide) (by decide)

/-! ### The orchestrator -/

/-- The event stream of one `main` iteration: a teardown call, then the
iteration's record, then the rest of the run. -/
theorem mainEvents_cons (qe : VersionRequest × ReqEnv)
    (rest : List (VersionRequest × ReqEnv)) :
    mainEvents (qe :: rest) =
      .teardown :: .record (tryBody qe.1 qe.2) :: mainEvents rest := rfl

/-- The records of a run, one per request, in order. -/
theorem mainRecords_cons (qe : VersionRequest × ReqEnv)
    (rest : List (VersionRequest × ReqEnv)) :
    mainRecords (qe :: rest) = tryBody qe.1 qe.2 :: mainRecords rest := rfl

/-- Counterexample to C6 as stated: when the executable is absent,
`quick_probe` returns before the `try` block, so while the verdict is an
`ERROR` mentioning the missing executable and nothing is launched, the
probe's own teardown (the `finally` that calls `kill_wemod_processes`) is
NOT invoked on this exit path. -/
theorem C6_missing_exe_counterexample :
    (quick_probe false pDefault 0 [] quiet).verdict = .ERROR missingExeMsg ∧
    strContains missingExeMsg "missing" = true ∧
    (quick_probe false pDefault 0 [] quiet).launched = false ∧
    (quick_probe false pDefault 0 [] quiet).teardownInvoked = false := by
  refine ⟨rfl, by decide, rfl, rfl⟩

/-- C6 (amended).  With the executable absent, `quick_probe` returns an
`ERROR` verdict whose detail mentions the missing executable and launches no
child process; its own `finally`-based teardown does not run on this path
(the early return precedes the `try` block); the stray-process kill is
nonetheless guaranteed by the orchestrator, which emits a teardown event
before every record and one after the run. -/
theorem C6_missing_exe_amended (p : ProbeParams) (start : ℚ)
    (trace : List (ℚ × RoleCounts)) (fsv : RoleCounts) :
    (quick_probe false p start trace fsv).verdict = .ERROR missingExeMsg ∧
    strContains missingExeMsg "missing" = true ∧
    (quick_probe false p start trace fsv).launched = false ∧
    (quick_probe false p start trace fsv).teardownInvoked = false ∧
    (∀ reqs : List (VersionRequest × ReqEnv),
        (mainEvents reqs).getLast? = some .teardown) ∧
    (∀ reqs : List (VersionRequest × ReqEnv), ∀ k qe, reqs.get? k = some qe →
        (mainEvents reqs).get? (2 * k) = some .teardown ∧
        (mainEvents reqs).get? (2 * k + 1) =
          some (.record (tryBody qe.1 qe.2))) := by
  refine ⟨rfl, by decide, rfl, rfl, ?_, ?_⟩
  · have key : ∀ (l : List (VersionRequest × ReqEnv)) (e : Event),
        (e :: mainEvents l).getLast? = some .teardown := by
      intro l
      induction l with
      | nil => intro e; rfl
      | cons qe rest ih =>
        intro e
        rw [mainEvents_cons, List.getLast?_cons_cons, List.getLast?_cons_cons]
        exact ih _
    intro reqs
    cases reqs with
    | nil => rfl
    | cons qe rest =>
      rw [mainEvents_cons, List.getLast?_cons_cons]
      exact key rest _
  · intro reqs
    induction reqs with
    | nil => intro k qe h; simp at h
    | cons qe0 rest ih =>
      intro k qe h
      cases k with
      | zero => simp at h; subst h; exact ⟨rfl, rfl⟩
      | succ n =>
        rw [List.get?_cons_succ] at h
        have := ih n qe h
        rw [mainEvents_cons]
        have h2 : 2 * (n + 1) = (2 * n + 1) + 1 := by omega
        rw [h2, List.get?_cons_succ, List.get?_cons_succ]
        exact ⟨this.1, this.2⟩

/-- Witness for C6 (amended): on a one-request run a teardown event precedes
the record. -/
theorem C6_missing_exe_amended_witness :
    (mainEvents [(⟨"wand", "1"⟩,
        ⟨Except.ok (), Except.ok (), Except.ok ("TIMEOUT", "x")⟩)]).get? 0 =
      some Event.teardown :=
  ((C6_missing_exe_amended pDefault 0 [] quiet).2.2.2.2.2
    [(⟨"wand", "1"⟩, ⟨Except.ok (), Except.ok (), Except.ok ("TIMEOUT", "x")⟩)]
    0 _ rfl).1

/-- C7.  `main` emits exactly one record per request, in input order; the
first step of an iteration that raises (download, install, or probe) is
caught and becomes an `ERROR` record for that version only, carrying the
exception text with commas replaced, and the loop proceeds to the next
request. -/
theorem C7_one_record_per_request (reqs : List (VersionRequest × ReqEnv)) :
    mainRecords reqs = reqs.map (fun qe => tryBody qe.1 qe.2) ∧
    (mainRecords reqs).length = reqs.length ∧
    (∀ qe ∈ reqs, (tryBody qe.1 qe.2).kind = qe.1.kind ∧
        (tryBody qe.1 qe.2).version = qe.1.version) ∧
    (∀ qe ∈ reqs, ∀ e, qe.2.download = .error e →
        tryBody qe.1 qe.2 = ⟨qe.1.kind, qe.1.version, "ERROR", sanitize e⟩) := by
  have hmap : mainRecords reqs = reqs.map (fun qe => tryBody qe.1 qe.2) := by
    induction reqs with
    | nil => rfl
    | cons qe rest ih => rw [mainRecords_cons, List.map_cons, ih]
  refine ⟨hmap, by rw [hmap, List.length_map], ?_, ?_⟩
  · intro qe _
    obtain ⟨q, env⟩ := qe
    obtain ⟨d, i, pr⟩ := env
    cases d with
    | error e => exact ⟨rfl, rfl⟩
    | ok u =>
      cases i with
      | error e => exact ⟨rfl, rfl⟩
      | ok u2 =>
        cases pr with
        | error e => exact ⟨rfl, rfl⟩
        | ok r => obtain ⟨st, sm⟩ := r; exact ⟨rfl, rfl⟩
  · intro qe _ e he
    obtain ⟨q, env⟩ := qe
    obtain ⟨d, i, pr⟩ := env
    simp only at he
    rw [show d = Except.error e from he]
    rfl

/-- Witness for C7: scenario D — the first request's download raises, the
second runs to a timeout; the output is exactly an `ERROR` record then a
`TIMEOUT` record, in that order. -/
theorem C7_one_record_per_request_witness :
    mainRecords
        [(⟨"wand", "12.0.3"⟩, ⟨Except.error "boom, bad", Except.ok (),
            Except.ok ("X", "Y")⟩),
         (⟨"wemod", "11.6.0"⟩, ⟨Except.ok (), Except.ok (),
            Except.ok ("TIMEOUT", "no stable renderer within 20s")⟩)] =
      [⟨"wand", "12.0.3", "ERROR", "boom; bad"⟩,
       ⟨"wemod", "11.6.0", "TIMEOUT", "no stable renderer within 20s"⟩] := by
  rw [(C7_one_record_per_request _).1]
  decide

/-! ### Renderer-stability segments force a `STARTED` verdict (C1) -/

/-- Within a run of cycles that all satisfy the renderer condition and stay
inside the budget, a renderer timer already armed at a truthy time `a` fires
at the first cycle whose timestamp crosses `a + threshold`; the black timer
is disarmed every such cycle, so the loop returns `STARTED` with the
deciding cycle's snapshot, whatever follows the run. -/
theorem seg_fires_renderer (p : ProbeParams) (start : ℚ) (fsv : RoleCounts)
    (a : ℚ) (ha : a ≠ 0) :
    ∀ (seg post : List (ℚ × RoleCounts)) (bs : Option ℚ),
      (∀ c ∈ seg, rendererCond c.2 = true) →
      (∀ c ∈ seg, c.1 - start < p.observeTimeout) →
      (∃ c ∈ seg, p.rendererStable ≤ c.1 - a) →
      ∃ c ∈ seg, rendererCond c.2 = true ∧
        runCycles p start fsv (some a) bs (seg ++ post) =
          .done (.STARTED c.2) := by
  intro seg
  induction seg with
  | nil =>
    intro post bs _ _ hex
    simp at hex
  | cons c0 rest ih =>
    intro post bs hall hguard hex
    obtain ⟨now, s⟩ := c0
    have hcond : rendererCond s = true := hall _ (List.mem_cons_self _ _)
    have hg : now - start < p.observeTimeout := hguard _ (List.mem_cons_self _ _)
    have hblack : blackCond s = false := blackCond_eq_false_of_rendererCond s hcond
    have harm : armTimer (rendererCond s) now (some a) = some a := by
      simp [armTimer, hcond]
    have hbs : armTimer (blackCond s) now bs = none := by
      simp [armTimer, hblack]
    rw [List.cons_append, runCycles_cons_of_guard p start fsv (some a) bs now s
      (rest ++ post) hg, harm, hbs]
    by_cases hf : p.rendererStable ≤ now - a
    · have hfire : timerFires p.rendererStable now (some a) = true := by
        simp [timerFires, ha, hf]
      refine ⟨(now, s), List.mem_cons_self _ _, hcond, ?_⟩
      simp [checkVerdicts, hfire]
    · have hnofire : timerFires p.rendererStable now (some a) = false := by
        show (decide (a ≠ 0) && decide (p.rendererStable ≤ now - a)) = false
        rw [decide_eq_false hf, Bool.and_false]
      have hcheck : checkVerdicts p now s (some a) none = none := by
        unfold checkVerdicts
        rw [hnofire]
        rfl
      rw [hcheck]
      have hex2 : ∃ c ∈ rest, p.rendererStable ≤ c.1 - a := by
        rcases hex with ⟨c, hc, hcle⟩
        rcases List.mem_cons.mp hc with h | h
        · rw [h] at hcle
          exact absurd hcle hf
        · exact ⟨c, h, hcle⟩
      obtain ⟨c, hc, hcond2, hrun⟩ := ih post none
        (fun c hc => hall c (List.mem_cons_of_mem _ hc))
        (fun c hc => hguard c (List.mem_cons_of_mem _ hc)) hex2
      exact ⟨c, List.mem_cons_of_mem _ hc, hcond2, hrun⟩

/-- As `seg_fires_renderer`, but entering the run with the renderer timer
unarmed: the first cycle of the run arms it at the run's (positive) first
timestamp. -/
theorem seg_fires_renderer_entry (p : ProbeParams) (start : ℚ)
    (fsv : RoleCounts) (t0 : ℚ) (s0 : RoleCounts) (hpos : 0 < t0)
    (tail post : List (ℚ × RoleCounts)) (bs : Option ℚ)
    (hall : ∀ c ∈ (t0, s0) :: tail, rendererCond c.2 = true)
    (hguard : ∀ c ∈ (t0, s0) :: tail, c.1 - start < p.observeTimeout)
    (hex : ∃ c ∈ (t0, s0) :: tail, p.rendererStable ≤ c.1 - t0) :
    ∃ c ∈ (t0, s0) :: tail, rendererCond c.2 = true ∧
      runCycles p start fsv none bs (((t0, s0) :: tail) ++ post) =
        .done (.STARTED c.2) := by
  have hcond : rendererCond s0 = true := hall _ (List.mem_cons_self _ _)
  have hg : t0 - start < p.observeTimeout := hguard _ (List.mem_cons_self _ _)
  have hblack : blackCond s0 = false := blackCond_eq_false_of_rendererCond s0 hcond
  have ht0 : t0 ≠ 0 := ne_of_gt hpos
  have harm : armTimer (rendererCond s0) t0 (none : Option ℚ) = some t0 := by
    simp [armTimer, hcond]
  have hbs : armTimer (blackCond s0) t0 bs = none := by
    simp [armTimer, hblack]
  rw [List.cons_append, runCycles_cons_of_guard p start fsv none bs t0 s0
    (tail ++ post) hg, harm, hbs]
  by_cases hf : p.rendererStable ≤ t0 - t0
  · have hfire : timerFires p.rendererStable t0 (some t0) = true := by
      show (decide (t0 ≠ 0) && decide (p.rendererStable ≤ t0 - t0)) = true
      rw [decide_eq_true ht0, decide_eq_true hf]
      rfl
    refine ⟨(t0, s0), List.mem_cons_self _ _, hcond, ?_⟩
    simp [checkVerdicts, hfire]
  · have hnofire : timerFires p.rendererStable t0 (some t0) = false := by
      show (decide (t0 ≠ 0) && decide (p.rendererStable ≤ t0 - t0)) = false
      rw [decide_eq_false hf, Bool.and_false]
    have hcheck : checkVerdicts p t0 s0 (some t0) none = none := by
      unfold checkVerdicts
      rw [hnofire]
      rfl
    rw [hcheck]
    have hex2 : ∃ c ∈ tail, p.rendererStable ≤ c.1 - t0 := by
      rcases hex with ⟨c, hc, hcle⟩
      rcases List.mem_cons.mp hc with h | h
      · rw [h] at hcle
        exact absurd hcle hf
      · exact ⟨c, h, hcle⟩
    obtain ⟨c, hc, hcond2, hrun⟩ := seg_fires_renderer p start fsv t0 ht0
      tail post none
      (fun c hc => hall c (List.mem_cons_of_mem _ hc))
      (fun c hc => hguard c (List.mem_cons_of_mem _ hc)) hex2
    exact ⟨c, List.mem_cons_of_mem _ hc, hcond2, hrun⟩

/-- C1.  For every trace in which, after a verdict-free prefix, the renderer
count is positive on a contiguous run of in-budget poll cycles spanning at
least `renderer_stable_threshold` seconds (with positive, non-decreasing
wall-clock times), the classifier loop of `quick_probe` returns the
`STARTED` verdict, and its detail carries the role-count snapshot of the
deciding cycle of that run. -/
theorem C1_renderer_stable_started (p : ProbeParams) (start : ℚ)
    (fsv : RoleCounts) (pre seg post : List (ℚ × RoleCounts))
    (rs0 bs0 : Option ℚ)
    (hpre : runCycles p start fsv none none pre = .ran rs0 bs0)
    (hpos : ∀ c ∈ pre ++ seg, 0 < c.1)
    (hmono : ((pre ++ seg).map Prod.fst).Pairwise (· ≤ ·))
    (hseg : ∀ c ∈ seg, rendererCond c.2 = true)
    (hguard : ∀ c ∈ seg, c.1 - start < p.observeTimeout)
    (hspan : ∃ c ∈ seg, ∃ c0, seg.head? = some c0 ∧
        p.rendererStable ≤ c.1 - c0.1) :
    ∃ c ∈ seg, rendererCond c.2 = true ∧
      (quick_probe true p start (pre ++ seg ++ post) fsv).verdict =
        .STARTED c.2 := by
  obtain ⟨cw, hcw, c0, hc0, hle⟩ := hspan
  cases seg with
  | nil => simp at hc0
  | cons chead tail =>
  simp only [List.head?_cons, Option.some.injEq] at hc0
  subst hc0
  obtain ⟨t0, s0⟩ := chead
  have hheadmem : ((t0, s0) : ℚ × RoleCounts) ∈ (t0, s0) :: tail :=
    List.mem_cons_self _ _
  have ht0pos : 0 < t0 := hpos _ (List.mem_append_right pre hheadmem)
  have hkey : ∃ c ∈ (t0, s0) :: tail, rendererCond c.2 = true ∧
      runCycles p start fsv rs0 bs0 (((t0, s0) :: tail) ++ post) =
        .done (.STARTED c.2) := by
    cases hrs : rs0 with
    | none =>
      subst hrs
      exact seg_fires_renderer_entry p start fsv t0 s0 ht0pos tail post bs0
        hseg hguard ⟨cw, hcw, hle⟩
    | some a =>
      have hmem := (runCycles_ran_arm_mem p start fsv pre none none rs0 bs0
        hpre).1 a hrs
      rcases hmem with h | h
      · exact absurd h (by simp)
      · obtain ⟨cpre, hcpre, hfst⟩ := List.mem_map.mp h
        have hapos : 0 < a := hfst ▸ hpos cpre (List.mem_append_left _ hcpre)
        have hale : a ≤ t0 := by
          rw [List.map_append] at hmono
          obtain ⟨-, -, hcross⟩ := List.pairwise_append.mp hmono
          exact hcross a h t0
            (List.mem_map.mpr ⟨(t0, s0), hheadmem, rfl⟩)
        have hex : ∃ c ∈ (t0, s0) :: tail, p.rendererStable ≤ c.1 - a :=
          ⟨cw, hcw, le_trans hle (by linarith)⟩
        subst hrs
        exact seg_fires_renderer p start fsv a (ne_of_gt hapos)
          ((t0, s0) :: tail) post bs0 hseg hguard hex
  obtain ⟨c, hc, hcond, hrun⟩ := hkey
  refine ⟨c, hc, hcond, ?_⟩
  show (⟨probeLoop p start (pre ++ (t0, s0) :: tail ++ post) fsv, true, true⟩ :
    ProbeRun).verdict = _
  simp only [probeLoop]
  rw [List.append_assoc, runCycles_append, hpre]
  show (match runCycles p start fsv rs0 bs0 ((t0, s0) :: tail ++ post) with
    | .done v => v
    | .ran _ _ => Verdict.TIMEOUT fsv) = Verdict.STARTED c.2
  rw [hrun]

/-- All poll times of the C1/C2 witness traces stay inside the default
20-second budget from `start = 0`. -/
theorem witness_guard :
    ∀ c ∈ [((1 : ℚ), rendererOnly), ((3 : ℚ), rendererOnly)],
      c.1 - 0 < pDefault.observeTimeout := by
  intro c hc
  rcases List.mem_cons.mp hc with h | h
  · rw [h]; norm_num [pDefault]
  · rcases List.mem_cons.mp h with h2 | h2
    · rw [h2]; norm_num [pDefault]
    · simp at h2

/-- The witness run spans 2 seconds, the default renderer threshold. -/
theorem witness_span :
    ∃ c ∈ [((1 : ℚ), rendererOnly), ((3 : ℚ), rendererOnly)],
      ∃ c0, ([((1 : ℚ), rendererOnly), ((3 : ℚ), rendererOnly)]).head? = some c0 ∧
        pDefault.rendererStable ≤ c.1 - c0.1 := by
  refine ⟨((3 : ℚ), rendererOnly), by decide, ((1 : ℚ), rendererOnly), rfl, ?_⟩
  norm_num [pDefault]

/-- Witness for C1: ten-o'clock-free concrete trace — renderer present at
times 1 and 3 with a 2-second threshold fires `STARTED`. -/
theorem C1_renderer_stable_started_witness :
    ∃ c ∈ [((1 : ℚ), rendererOnly), ((3 : ℚ), rendererOnly)],
      rendererCond c.2 = true ∧
      (quick_probe true pDefault 0
          ([] ++ [((1 : ℚ), rendererOnly), ((3 : ℚ), rendererOnly)] ++ [])
          quiet).verdict = .STARTED c.2 :=
  C1_renderer_stable_started pDefault 0 quiet []
    [((1 : ℚ), rendererOnly), ((3 : ℚ), rendererOnly)] [] none none
    rfl (by decide) (by decide) (by decide) witness_guard witness_span

/-! ### Black-pattern segments force a `BLACK_PATTERN` verdict (C2) -/

/-- Within a run of cycles that all satisfy the black-pattern condition and
stay inside the budget, a black timer already armed at a truthy time `b`
fires at the first cycle crossing `b + threshold`; the renderer timer is
disarmed every such cycle (the conditions are mutually exclusive), so the
loop returns `BLACK_PATTERN`, whatever follows the run. -/
theorem seg_fires_black (p : ProbeParams) (start : ℚ) (fsv : RoleCounts)
    (b : ℚ) (hb : b ≠ 0) :
    ∀ (seg post : List (ℚ × RoleCounts)) (rs : Option ℚ),
      (∀ c ∈ seg, blackCond c.2 = true) →
      (∀ c ∈ seg, c.1 - start < p.observeTimeout) →
      (∃ c ∈ seg, p.blackStable ≤ c.1 - b) →
      ∃ c ∈ seg, blackCond c.2 = true ∧
        runCycles p start fsv rs (some b) (seg ++ post) =
          .done (.BLACK_PATTERN c.2) := by
  intro seg
  induction seg with
  | nil =>
    intro post rs _ _ hex
    simp at hex
  | cons c0 rest ih =>
    intro post rs hall hguard hex
    obtain ⟨now, s⟩ := c0
    have hcond : blackCond s = true := hall _ (List.mem_cons_self _ _)
    have hg : now - start < p.observeTimeout := hguard _ (List.mem_cons_self _ _)
    have hrend : rendererCond s = false := rendererCond_eq_false_of_blackCond s hcond
    have harmr : armTimer (rendererCond s) now rs = none := by
      simp [armTimer, hrend]
    have harmb : armTimer (blackCond s) now (some b) = some b := by
      simp [armTimer, hcond]
    rw [List.cons_append, runCycles_cons_of_guard p start fsv rs (some b) now s
      (rest ++ post) hg, harmr, harmb]
    by_cases hf : p.blackStable ≤ now - b
    · have hfire : timerFires p.blackStable now (some b) = true := by
        show (decide (b ≠ 0) && decide (p.blackStable ≤ now - b)) = true
        rw [decide_eq_true hb, decide_eq_true hf]
        rfl
      refine ⟨(now, s), List.mem_cons_self _ _, hcond, ?_⟩
      have hcheck : checkVerdicts p now s none (some b) =
          some (.BLACK_PATTERN s) := by
        unfold checkVerdicts
        rw [hfire]
        rfl
      rw [hcheck]
    · have hnofire : timerFires p.blackStable now (some b) = false := by
        show (decide (b ≠ 0) && decide (p.blackStable ≤ now - b)) = false
        rw [decide_eq_false hf, Bool.and_false]
      have hcheck : checkVerdicts p now s none (some b) = none := by
        unfold checkVerdicts
        rw [hnofire]
        rfl
      rw [hcheck]
      have hex2 : ∃ c ∈ rest, p.blackStable ≤ c.1 - b := by
        rcases hex with ⟨c, hc, hcle⟩
        rcases List.mem_cons.mp hc with h | h
        · rw [h] at hcle
          exact absurd hcle hf
        · exact ⟨c, h, hcle⟩
      obtain ⟨c, hc, hcond2, hrun⟩ := ih post none
        (fun c hc => hall c (List.mem_cons_of_mem _ hc))
        (fun c hc => hguard c (List.mem_cons_of_mem _ hc)) hex2
      exact ⟨c, List.mem_cons_of_mem _ hc, hcond2, hrun⟩

/-- As `seg_fires_black`, but entering the run with the black timer unarmed:
the run's first cycle arms it at the run's (positive) first timestamp. -/
theorem seg_fires_black_entry (p : ProbeParams) (start : ℚ)
    (fsv : RoleCounts) (t0 : ℚ) (s0 : RoleCounts) (hpos : 0 < t0)
    (tail post : List (ℚ × RoleCounts)) (rs : Option ℚ)
    (hall : ∀ c ∈ (t0, s0) :: tail, blackCond c.2 = true)
    (hguard : ∀ c ∈ (t0, s0) :: tail, c.1 - start < p.observeTimeout)
    (hex : ∃ c ∈ (t0, s0) :: tail, p.blackStable ≤ c.1 - t0) :
    ∃ c ∈ (t0, s0) :: tail, blackCond c.2 = true ∧
      runCycles p start fsv rs none (((t0, s0) :: tail) ++ post) =
        .done (.BLACK_PATTERN c.2) := by
  have hcond : blackCond s0 = true := hall _ (List.mem_cons_self _ _)
  have hg : t0 - start < p.observeTimeout := hguard _ (List.mem_cons_self _ _)
  have hrend : rendererCond s0 = false := rendererCond_eq_false_of_blackCond s0 hcond
  have ht0 : t0 ≠ 0 := ne_of_gt hpos
  have harmr : armTimer (rendererCond s0) t0 rs = none := by
    simp [armTimer, hrend]
  have harmb : armTimer (blackCond s0) t0 (none : Option ℚ) = some t0 := by
    simp [armTimer, hcond]
  rw [List.cons_append, runCycles_cons_of_guard p start fsv rs none t0 s0
    (tail ++ post) hg, harmr, harmb]
  by_cases hf : p.blackStable ≤ t0 - t0
  · have hfire : timerFires p.blackStable t0 (some t0) = true := by
      show (decide (t0 ≠ 0) && decide (p.blackStable ≤ t0 - t0)) = true
      rw [decide_eq_true ht0, decide_eq_true hf]
      rfl
    refine ⟨(t0, s0), List.mem_cons_self _ _, hcond, ?_⟩
    have hcheck : checkVerdicts p t0 s0 none (some t0) =
        some (.BLACK_PATTERN s0) := by
      unfold checkVerdicts
      rw [hfire]
      rfl
    rw [hcheck]
  · have hnofire : timerFires p.blackStable t0 (some t0) = false := by
      show (decide (t0 ≠ 0) && decide (p.blackStable ≤ t0 - t0)) = false
      rw [decide_eq_false hf, Bool.and_false]
    have hcheck : checkVerdicts p t0 s0 none (some t0) = none := by
      unfold checkVerdicts
      rw [hnofire]
      rfl
    rw [hcheck]
    have hex2 : ∃ c ∈ tail, p.blackStable ≤ c.1 - t0 := by
      rcases hex with ⟨c, hc, hcle⟩
      rcases List.mem_cons.mp hc with h | h
      · rw [h] at hcle
        exact absurd hcle hf
      · exact ⟨c, h, hcle⟩
    obtain ⟨c, hc, hcond2, hrun⟩ := seg_fires_black p start fsv t0 ht0
      tail post none
      (fun c hc => hall c (List.mem_cons_of_mem _ hc))
      (fun c hc => hguard c (List.mem_cons_of_mem _ hc)) hex2
    exact ⟨c, List.mem_cons_of_mem _ hc, hcond2, hrun⟩

/-- C2.  For every trace in which, after a verdict-free prefix, the
black-pattern condition (`main > 0 ∧ gpu > 0 ∧ utility > 0 ∧ renderer = 0`)
holds on a contiguous run of in-budget poll cycles spanning at least
`black_pattern_stable_threshold` seconds (with positive, non-decreasing
wall-clock times), the classifier loop of `quick_probe` returns the
`BLACK_PATTERN` verdict; the renderer condition cannot reach its own
threshold inside such a run since it is disarmed on every black cycle. -/
theorem C2_black_pattern_verdict (p : ProbeParams) (start : ℚ)
    (fsv : RoleCounts) (pre seg post : List (ℚ × RoleCounts))
    (rs0 bs0 : Option ℚ)
    (hpre : runCycles p start fsv none none pre = .ran rs0 bs0)
    (hpos : ∀ c ∈ pre ++ seg, 0 < c.1)
    (hmono : ((pre ++ seg).map Prod.fst).Pairwise (· ≤ ·))
    (hseg : ∀ c ∈ seg, blackCond c.2 = true)
    (hguard : ∀ c ∈ seg, c.1 - start < p.observeTimeout)
    (hspan : ∃ c ∈ seg, ∃ c0, seg.head? = some c0 ∧
        p.blackStable ≤ c.1 - c0.1) :
    ∃ c ∈ seg, blackCond c.2 = true ∧
      (quick_probe true p start (pre ++ seg ++ post) fsv).verdict =
        .BLACK_PATTERN c.2 := by
  obtain ⟨cw, hcw, c0, hc0, hle⟩ := hspan
  cases seg with
  | nil => simp at hc0
  | cons chead tail =>
  simp only [List.head?_cons, Option.some.injEq] at hc0
  subst hc0
  obtain ⟨t0, s0⟩ := chead
  have hheadmem : ((t0, s0) : ℚ × RoleCounts) ∈ (t0, s0) :: tail :=
    List.mem_cons_self _ _
  have ht0pos : 0 < t0 := hpos _ (List.mem_append_right pre hheadmem)
  have hkey : ∃ c ∈ (t0, s0) :: tail, blackCond c.2 = true ∧
      runCycles p start fsv rs0 bs0 (((t0, s0) :: tail) ++ post) =
        .done (.BLACK_PATTERN c.2) := by
    cases hbs : bs0 with
    | none =>
      subst hbs
      exact seg_fires_black_entry p start fsv t0 s0 ht0pos tail post rs0
        hseg hguard ⟨cw, hcw, hle⟩
    | some b =>
      have hmem := (runCycles_ran_arm_mem p start fsv pre none none rs0 bs0
        hpre).2 b hbs
      rcases hmem with h | h
      · exact absurd h (by simp)
      · obtain ⟨cpre, hcpre, hfst⟩ := List.mem_map.mp h
        have hbpos : 0 < b := hfst ▸ hpos cpre (List.mem_append_left _ hcpre)
        have hble : b ≤ t0 := by
          rw [List.map_append] at hmono
          obtain ⟨-, -, hcross⟩ := List.pairwise_append.mp hmono
          exact hcross b h t0
            (List.mem_map.mpr ⟨(t0, s0), hheadmem, rfl⟩)
        have hex : ∃ c ∈ (t0, s0) :: tail, p.blackStable ≤ c.1 - b :=
          ⟨cw, hcw, le_trans hle (by linarith)⟩
        subst hbs
        exact seg_fires_black p start fsv b (ne_of_gt hbpos)
          ((t0, s0) :: tail) post rs0 hseg hguard hex
  obtain ⟨c, hc, hcond, hrun⟩ := hkey
  refine ⟨c, hc, hcond, ?_⟩
  show (⟨probeLoop p start (pre ++ (t0, s0) :: tail ++ post) fsv, true, true⟩ :
    ProbeRun).verdict = _
  simp only [probeLoop]
  rw [List.append_assoc, runCycles_append, hpre]
  show (match runCycles p start fsv rs0 bs0 ((t0, s0) :: tail ++ post) with
    | .done v => v
    | .ran _ _ => Verdict.TIMEOUT fsv) = Verdict.BLACK_PATTERN c.2
  rw [hrun]

/-- All poll times of the C2 witness trace stay inside the default budget. -/
theorem witness_guard_black :
    ∀ c ∈ [((1 : ℚ), blackSnap), ((3 : ℚ), blackSnap)],
      c.1 - 0 < pDefault.observeTimeout := by
  intro c hc
  rcases List.mem_cons.mp hc with h | h
  · rw [h]; norm_num [pDefault]
  · rcases List.mem_cons.mp h with h2 | h2
    · rw [h2]; norm_num [pDefault]
    · simp at h2

/-- The C2 witness run spans 2 seconds, the default black threshold. -/
theorem witness_span_black :
    ∃ c ∈ [((1 : ℚ), blackSnap), ((3 : ℚ), blackSnap)],
      ∃ c0, ([((1 : ℚ), blackSnap), ((3 : ℚ), blackSnap)]).head? = some c0 ∧
        pDefault.blackStable ≤ c.1 - c0.1 := by
  refine ⟨((3 : ℚ), blackSnap), by decide, ((1 : ℚ), blackSnap), rfl, ?_⟩
  norm_num [pDefault]

/-- Witness for C2: the black-pattern snapshot held at times 1 and 3 with a
2-second threshold fires `BLACK_PATTERN`. -/
theorem C2_black_pattern_verdict_witness :
    ∃ c ∈ [((1 : ℚ), blackSnap), ((3 : ℚ), blackSnap)],
      blackCond c.2 = true ∧
      (quick_probe true pDefault 0
          ([] ++ [((1 : ℚ), blackSnap), ((3 : ℚ), blackSnap)] ++ [])
          quiet).verdict = .BLACK_PATTERN c.2 :=
  C2_black_pattern_verdict pDefault 0 quiet []
    [((1 : ℚ), blackSnap), ((3 : ℚ), blackSnap)] [] none none
    rfl (by decide) (by decide) (by decide) witness_guard_black
    witness_span_black

/-! ### A single false snapshot resets a debounce timer (C3) -/

/-- With the renderer timer unarmed at the checks, only `BLACK_PATTERN` can
be emitted in that cycle. -/
theorem checkVerdicts_unarmed_renderer (p : ProbeParams) (now : ℚ)
    (st : RoleCounts) (bs : Option ℚ) (v : Verdict)
    (h : checkVerdicts p now st none bs = some v) :
    v = .BLACK_PATTERN st := by
  unfold checkVerdicts at h
  split at h
  · next hcond => exact absurd hcond (by simp [timerFires])
  · split at h
    · exact (Option.some.inj h).symm
    · exact absurd h (by simp)

/-- With the black timer unarmed at the checks, only `STARTED` can be
emitted in that cycle. -/
theorem checkVerdicts_unarmed_black (p : ProbeParams) (now : ℚ)
    (st : RoleCounts) (rs : Option ℚ) (v : Verdict)
    (h : checkVerdicts p now st rs none = some v) :
    v = .STARTED st := by
  unfold checkVerdicts at h
  split at h
  · exact (Option.some.inj h).symm
  · split at h
    · next hcond => exact absurd hcond (by simp [timerFires])
    · exact absurd h (by simp)

/-- A renderer timer armed at `a` cannot produce `STARTED` over a run of
renderer-true cycles none of which reaches `a + threshold`. -/
theorem no_fire_renderer_armed (p : ProbeParams) (start : ℚ)
    (fsv : RoleCounts) (a : ℚ) :
    ∀ (cycles : List (ℚ × RoleCounts)) (bs : Option ℚ),
      (∀ c ∈ cycles, rendererCond c.2 = true) →
      (∀ c ∈ cycles, c.1 - a < p.rendererStable) →
      ∀ s, runCycles p start fsv (some a) bs cycles ≠ .done (.STARTED s) := by
  intro cycles
  induction cycles with
  | nil =>
    intro bs _ _ s
    simp [runCycles]
  | cons c0 rest ih =>
    intro bs hall hspan s
    obtain ⟨now, st⟩ := c0
    by_cases hg : now - start < p.observeTimeout
    · have hcond : rendererCond st = true := hall _ (List.mem_cons_self _ _)
      have hblack : blackCond st = false :=
        blackCond_eq_false_of_rendererCond st hcond
      have harm : armTimer (rendererCond st) now (some a) = some a := by
        simp [armTimer, hcond]
      have hbs : armTimer (blackCond st) now bs = none := by
        simp [armTimer, hblack]
      have hf : ¬p.rendererStable ≤ now - a :=
        not_le.mpr (hspan _ (List.mem_cons_self _ _))
      have hnofire : timerFires p.rendererStable now (some a) = false := by
        show (decide (a ≠ 0) && decide (p.rendererStable ≤ now - a)) = false
        rw [decide_eq_false hf, Bool.and_false]
      have hcheck : checkVerdicts p now st (some a) none = none := by
        unfold checkVerdicts
        rw [hnofire]
        rfl
      rw [runCycles_cons_of_guard p start fsv (some a) bs now st rest hg,
        harm, hbs, hcheck]
      exact ih none (fun c hc => hall c (List.mem_cons_of_mem _ hc))
        (fun c hc => hspan c (List.mem_cons_of_mem _ hc)) s
    · rw [runCycles_cons_of_timeout p start fsv (some a) bs now st rest hg]
      simp

/-- A renderer timer unarmed at the start of a renderer-true run whose
cycles never get `threshold` past the run's first timestamp cannot produce
`STARTED`. -/
theorem no_fire_renderer_entry (p : ProbeParams) (start : ℚ)
    (fsv : RoleCounts) :
    ∀ (cycles : List (ℚ × RoleCounts)) (bs : Option ℚ),
      (∀ c ∈ cycles, rendererCond c.2 = true) →
      (∀ c ∈ cycles, ∀ c0, cycles.head? = some c0 →
        c.1 - c0.1 < p.rendererStable) →
      ∀ s, runCycles p start fsv none bs cycles ≠ .done (.STARTED s) := by
  intro cycles
  cases cycles with
  | nil =>
    intro bs _ _ s
    simp [runCycles]
  | cons c0 rest =>
    intro bs hall hspan s
    obtain ⟨t0, s0⟩ := c0
    by_cases hg : t0 - start < p.observeTimeout
    · have hcond : rendererCond s0 = true := hall _ (List.mem_cons_self _ _)
      have hblack : blackCond s0 = false :=
        blackCond_eq_false_of_rendererCond s0 hcond
      have harm : armTimer (rendererCond s0) t0 (none : Option ℚ) = some t0 := by
        simp [armTimer, hcond]
      have hbs : armTimer (blackCond s0) t0 bs = none := by
        simp [armTimer, hblack]
      have hf : ¬p.rendererStable ≤ t0 - t0 :=
        not_le.mpr (hspan _ (List.mem_cons_self _ _) _ rfl)
      have hnofire : timerFires p.rendererStable t0 (some t0) = false := by
        show (decide (t0 ≠ 0) && decide (p.rendererStable ≤ t0 - t0)) = false
        rw [decide_eq_false hf, Bool.and_false]
      have hcheck : checkVerdicts p t0 s0 (some t0) none = none := by
        unfold checkVerdicts
        rw [hnofire]
        rfl
      rw [runCycles_cons_of_guard p start fsv none bs t0 s0 rest hg,
        harm, hbs, hcheck]
      exact no_fire_renderer_armed p start fsv t0 rest none
        (fun c hc => hall c (List.mem_cons_of_mem _ hc))
        (fun c hc => hspan c (List.mem_cons_of_mem _ hc) _ rfl) s
    · rw [runCycles_cons_of_timeout p start fsv none bs t0 s0 rest hg]
      simp

/-- A black timer armed at `b` cannot produce `BLACK_PATTERN` over a run of
black-true cycles none of which reaches `b + threshold`. -/
theorem no_fire_black_armed (p : ProbeParams) (start : ℚ)
    (fsv : RoleCounts) (b : ℚ) :
    ∀ (cycles : List (ℚ × RoleCounts)) (rs : Option ℚ),
      (∀ c ∈ cycles, blackCond c.2 = true) →
      (∀ c ∈ cycles, c.1 - b < p.blackStable) →
      ∀ s, runCycles p start fsv rs (some b) cycles ≠
        .done (.BLACK_PATTERN s) := by
  intro cycles
  induction cycles with
  | nil =>
    intro rs _ _ s
    simp [runCycles]
  | cons c0 rest ih =>
    intro rs hall hspan s
    obtain ⟨now, st⟩ := c0
    by_cases hg : now - start < p.observeTimeout
    · have hcond : blackCond st = true := hall _ (List.mem_cons_self _ _)
      have hrend : rendererCond st = false :=
        rendererCond_eq_false_of_blackCond st hcond
      have harmr : armTimer (rendererCond st) now rs = none := by
        simp [armTimer, hrend]
      have harmb : armTimer (blackCond st) now (some b) = some b := by
        simp [armTimer, hcond]
      have hf : ¬p.blackStable ≤ now - b :=
        not_le.mpr (hspan _ (List.mem_cons_self _ _))
      have hnofire : timerFires p.blackStable now (some b) = false := by
        show (decide (b ≠ 0) && decide (p.blackStable ≤ now - b)) = false
        rw [decide_eq_false hf, Bool.and_false]
      have hcheck : checkVerdicts p now st none (some b) = none := by
        unfold checkVerdicts
        rw [hnofire]
        rfl
      rw [runCycles_cons_of_guard p start fsv rs (some b) now st rest hg,
        harmr, harmb, hcheck]
      exact ih none (fun c hc => hall c (List.mem_cons_of_mem _ hc))
        (fun c hc => hspan c (List.mem_cons_of_mem _ hc)) s
    · rw [runCycles_cons_of_timeout p start fsv rs (some b) now st rest hg]
      simp

/-- A black timer unarmed at the start of a black-true run whose cycles
never get `threshold` past the run's first timestamp cannot produce
`BLACK_PATTERN`. -/
theorem no_fire_black_entry (p : ProbeParams) (start : ℚ)
    (fsv : RoleCounts) :
    ∀ (cycles : List (ℚ × RoleCounts)) (rs : Option ℚ),
      (∀ c ∈ cycles, blackCond c.2 = true) →
      (∀ c ∈ cycles, ∀ c0, cycles.head? = some c0 →
        c.1 - c0.1 < p.blackStable) →
      ∀ s, runCycles p start fsv rs none cycles ≠
        .done (.BLACK_PATTERN s) := by
  intro cycles
  cases cycles with
  | nil =>
    intro rs _ _ s
    simp [runCycles]
  | cons c0 rest =>
    intro rs hall hspan s
    obtain ⟨t0, s0⟩ := c0
    by_cases hg : t0 - start < p.observeTimeout
    · have hcond : blackCond s0 = true := hall _ (List.mem_cons_self _ _)
      have hrend : rendererCond s0 = false :=
        rendererCond_eq_false_of_blackCond s0 hcond
      have harmr : armTimer (rendererCond s0) t0 rs = none := by
        simp [armTimer, hrend]
      have harmb : armTimer (blackCond s0) t0 (none : Option ℚ) = some t0 := by
        simp [armTimer, hcond]
      have hf : ¬p.blackStable ≤ t0 - t0 :=
        not_le.mpr (hspan _ (List.mem_cons_self _ _) _ rfl)
      have hnofire : timerFires p.blackStable t0 (some t0) = false := by
        show (decide (t0 ≠ 0) && decide (p.blackStable ≤ t0 - t0)) = false
        rw [decide_eq_false hf, Bool.and_false]
      have hcheck : checkVerdicts p t0 s0 none (some t0) = none := by
        unfold checkVerdicts
        rw [hnofire]
        rfl
      rw [runCycles_cons_of_guard p start fsv rs none t0 s0 rest hg,
        harmr, harmb, hcheck]
      exact no_fire_black_armed p start fsv t0 rest none
        (fun c hc => hall c (List.mem_cons_of_mem _ hc))
        (fun c hc => hspan c (List.mem_cons_of_mem _ hc) _ rfl) s
    · rw [runCycles_cons_of_timeout p start fsv rs none t0 s0 rest hg]
      simp

/-- Renderer flicker: a renderer-true run short of the threshold, one
renderer-false snapshot (which disarms the timer), and a second short
renderer-true run never produce `STARTED` on the whole trace. -/
theorem flicker_no_started (p : ProbeParams) (start : ℚ) (fsv : RoleCounts)
    (seg1 : List (ℚ × RoleCounts)) (gapc : ℚ × RoleCounts)
    (seg2 : List (ℚ × RoleCounts))
    (h1 : ∀ c ∈ seg1, rendererCond c.2 = true)
    (hgap : rendererCond gapc.2 = false)
    (h2 : ∀ c ∈ seg2, rendererCond c.2 = true)
    (hs1 : ∀ c ∈ seg1, ∀ c0, seg1.head? = some c0 →
      c.1 - c0.1 < p.rendererStable)
    (hs2 : ∀ c ∈ seg2, ∀ c0, seg2.head? = some c0 →
      c.1 - c0.1 < p.rendererStable) :
    ∀ s, (quick_probe true p start (seg1 ++ gapc :: seg2) fsv).verdict ≠
      .STARTED s := by
  intro s
  show (⟨probeLoop p start (seg1 ++ gapc :: seg2) fsv, true, true⟩ :
    ProbeRun).verdict ≠ _
  simp only [probeLoop]
  rw [runCycles_append]
  cases hrun1 : runCycles p start fsv none none seg1 with
  | done v =>
    show v ≠ Verdict.STARTED s
    intro hv
    subst hv
    exact no_fire_renderer_entry p start fsv seg1 none h1 hs1 s hrun1
  | ran rs1 bs1 =>
    obtain ⟨tg, sg⟩ := gapc
    show (match runCycles p start fsv rs1 bs1 ((tg, sg) :: seg2) with
      | .done v => v
      | .ran _ _ => Verdict.TIMEOUT fsv) ≠ Verdict.STARTED s
    by_cases hgg : tg - start < p.observeTimeout
    · rw [runCycles_cons_of_guard p start fsv rs1 bs1 tg sg seg2 hgg]
      have harmr : armTimer (rendererCond sg) tg rs1 = none := by
        simp [armTimer, hgap]
      rw [harmr]
      cases hcv : checkVerdicts p tg sg none
          (armTimer (blackCond sg) tg bs1) with
      | some v =>
        have hv := checkVerdicts_unarmed_renderer p tg sg _ v hcv
        show v ≠ Verdict.STARTED s
        rw [hv]
        simp
      | none =>
        cases hrun2 : runCycles p start fsv none
            (armTimer (blackCond sg) tg bs1) seg2 with
        | done v2 =>
          show v2 ≠ Verdict.STARTED s
          intro hv2
          subst hv2
          exact no_fire_renderer_entry p start fsv seg2 _ h2 hs2 s hrun2
        | ran a b =>
          show Verdict.TIMEOUT fsv ≠ Verdict.STARTED s
          simp
    · rw [runCycles_cons_of_timeout p start fsv rs1 bs1 tg sg seg2 hgg]
      show Verdict.TIMEOUT fsv ≠ Verdict.STARTED s
      simp

/-- Black flicker: a black-true run short of the threshold, one black-false
snapshot, and a second short black-true run never produce `BLACK_PATTERN`
on the whole trace. -/
theorem flicker_no_black (p : ProbeParams) (start : ℚ) (fsv : RoleCounts)
    (seg1 : List (ℚ × RoleCounts)) (gapc : ℚ × RoleCounts)
    (seg2 : List (ℚ × RoleCounts))
    (h1 : ∀ c ∈ seg1, blackCond c.2 = true)
    (hgap : blackCond gapc.2 = false)
    (h2 : ∀ c ∈ seg2, blackCond c.2 = true)
    (hs1 : ∀ c ∈ seg1, ∀ c0, seg1.head? = some c0 →
      c.1 - c0.1 < p.blackStable)
    (hs2 : ∀ c ∈ seg2, ∀ c0, seg2.head? = some c0 →
      c.1 - c0.1 < p.blackStable) :
    ∀ s, (quick_probe true p start (seg1 ++ gapc :: seg2) fsv).verdict ≠
      .BLACK_PATTERN s := by
  intro s
  show (⟨probeLoop p start (seg1 ++ gapc :: seg2) fsv, true, true⟩ :
    ProbeRun).verdict ≠ _
  simp only [probeLoop]
  rw [runCycles_append]
  cases hrun1 : runCycles p start fsv none none seg1 with
  | done v =>
    show v ≠ Verdict.BLACK_PATTERN s
    intro hv
    subst hv
    exact no_fire_black_entry p start fsv seg1 none h1 hs1 s hrun1
  | ran rs1 bs1 =>
    obtain ⟨tg, sg⟩ := gapc
    show (match runCycles p start fsv rs1 bs1 ((tg, sg) :: seg2) with
      | .done v => v
      | .ran _ _ => Verdict.TIMEOUT fsv) ≠ Verdict.BLACK_PATTERN s
    by_cases hgg : tg - start < p.observeTimeout
    · rw [runCycles_cons_of_guard p start fsv rs1 bs1 tg sg seg2 hgg]
      have harmb : armTimer (blackCond sg) tg bs1 = none := by
        simp [armTimer, hgap]
      rw [harmb]
      cases hcv : checkVerdicts p tg sg
          (armTimer (rendererCond sg) tg rs1) none with
      | some v =>
        have hv := checkVerdicts_unarmed_black p tg sg _ v hcv
        show v ≠ Verdict.BLACK_PATTERN s
        rw [hv]
        simp
      | none =>
        cases hrun2 : runCycles p start fsv
            (armTimer (rendererCond sg) tg rs1) none seg2 with
        | done v2 =>
          show v2 ≠ Verdict.BLACK_PATTERN s
          intro hv2
          subst hv2
          exact no_fire_black_entry p start fsv seg2 _ h2 hs2 s hrun2
        | ran a b =>
          show Verdict.TIMEOUT fsv ≠ Verdict.BLACK_PATTERN s
          simp
    · rw [runCycles_cons_of_timeout p start fsv rs1 bs1 tg sg seg2 hgg]
      show Verdict.TIMEOUT fsv ≠ Verdict.BLACK_PATTERN s
      simp

/-- C3.  A single snapshot on which a previously-true condition is false
resets that condition's debounce to zero: a condition-true run spanning
less than the threshold, one false snapshot, and a second run spanning less
than the threshold never produce `STARTED` (renderer condition), resp.
`BLACK_PATTERN` (black-pattern condition), anywhere on the combined trace. -/
theorem C3_flicker_resets_debounce :
    (∀ (p : ProbeParams) (start : ℚ) (fsv : RoleCounts)
        (seg1 : List (ℚ × RoleCounts)) (gapc : ℚ × RoleCounts)
        (seg2 : List (ℚ × RoleCounts)),
      (∀ c ∈ seg1, rendererCond c.2 = true) →
      rendererCond gapc.2 = false →
      (∀ c ∈ seg2, rendererCond c.2 = true) →
      (∀ c ∈ seg1, ∀ c0, seg1.head? = some c0 →
        c.1 - c0.1 < p.rendererStable) →
      (∀ c ∈ seg2, ∀ c0, seg2.head? = some c0 →
        c.1 - c0.1 < p.rendererStable) →
      ∀ s, (quick_probe true p start (seg1 ++ gapc :: seg2) fsv).verdict ≠
        .STARTED s) ∧
    (∀ (p : ProbeParams) (start : ℚ) (fsv : RoleCounts)
        (seg1 : List (ℚ × RoleCounts)) (gapc : ℚ × RoleCounts)
        (seg2 : List (ℚ × RoleCounts)),
      (∀ c ∈ seg1, blackCond c.2 = true) →
      blackCond gapc.2 = false →
      (∀ c ∈ seg2, blackCond c.2 = true) →
      (∀ c ∈ seg1, ∀ c0, seg1.head? = some c0 →
        c.1 - c0.1 < p.blackStable) →
      (∀ c ∈ seg2, ∀ c0, seg2.head? = some c0 →
        c.1 - c0.1 < p.blackStable) →
      ∀ s, (quick_probe true p start (seg1 ++ gapc :: seg2) fsv).verdict ≠
        .BLACK_PATTERN s) :=
  ⟨flicker_no_started, flicker_no_black⟩

/-- The C3 witness's first one-cycle run spans 0 < 2 seconds. -/
theorem witness_flicker_span1 :
    ∀ c ∈ [((1 : ℚ), rendererOnly)], ∀ c0,
      ([((1 : ℚ), rendererOnly)]).head? = some c0 →
      c.1 - c0.1 < pDefault.rendererStable := by
  intro c hc c0 hc0
  simp only [List.mem_singleton] at hc
  simp only [List.head?_cons, Option.some.injEq] at hc0
  rw [hc, ← hc0]
  norm_num [pDefault]

/-- The C3 witness's second one-cycle run spans 0 < 2 seconds. -/
theorem witness_flicker_span2 :
    ∀ c ∈ [((3 : ℚ), rendererOnly)], ∀ c0,
      ([((3 : ℚ), rendererOnly)]).head? = some c0 →
      c.1 - c0.1 < pDefault.rendererStable := by
  intro c hc c0 hc0
  simp only [List.mem_singleton] at hc
  simp only [List.head?_cons, Option.some.injEq] at hc0
  rw [hc, ← hc0]
  norm_num [pDefault]

/-- Witness for C3: renderer present at times 1 and 3 with a gap at time 2
never yields `STARTED` under the 2-second threshold, although the renderer
was cumulatively present for 2 seconds of the trace. -/
theorem C3_flicker_resets_debounce_witness :
    (quick_probe true pDefault 0
        ([((1 : ℚ), rendererOnly)] ++ ((2 : ℚ), quiet) ::
          [((3 : ℚ), rendererOnly)]) quiet).verdict ≠ .STARTED rendererOnly :=
  C3_flicker_resets_debounce.1 pDefault 0 quiet [((1 : ℚ), rendererOnly)]
    ((2 : ℚ), quiet) [((3 : ℚ), rendererOnly)]
    (by decide) (by decide) (by decide)
    witness_flicker_span1 witness_flicker_span2 rendererOnly

/-! ### No sufficiently long stable run means `TIMEOUT` (C5) -/

/-- Generalized loop invariant for C5: while every contiguous
condition-true run of the trace spans less than its threshold, the loop
never returns `STARTED` or `BLACK_PATTERN` — each armed timer's arm time is
the first timestamp of the current condition-true run, which never gets
`threshold` behind the present cycle. -/
theorem no_long_run_timeout_aux (p : ProbeParams) (start : ℚ)
    (fsv : RoleCounts) (trace : List (ℚ × RoleCounts))
    (Hr : ∀ pre mid suf, trace = pre ++ mid ++ suf →
      (∀ c ∈ mid, rendererCond c.2 = true) →
      ∀ c ∈ mid, ∀ c0 ∈ mid, c.1 - c0.1 < p.rendererStable)
    (Hb : ∀ pre mid suf, trace = pre ++ mid ++ suf →
      (∀ c ∈ mid, blackCond c.2 = true) →
      ∀ c ∈ mid, ∀ c0 ∈ mid, c.1 - c0.1 < p.blackStable) :
    ∀ (suffix done2 : List (ℚ × RoleCounts)) (rs bs : Option ℚ),
      trace = done2 ++ suffix →
      (rs = none ∨ ∃ a pre1 mid1 s1, rs = some a ∧ done2 = pre1 ++ mid1 ∧
        (∀ c ∈ mid1, rendererCond c.2 = true) ∧ mid1.head? = some (a, s1)) →
      (bs = none ∨ ∃ b pre2 mid2 s2, bs = some b ∧ done2 = pre2 ++ mid2 ∧
        (∀ c ∈ mid2, blackCond c.2 = true) ∧ mid2.head? = some (b, s2)) →
      runCycles p start fsv rs bs suffix = .done (.TIMEOUT fsv) ∨
        ∃ rs2 bs2, runCycles p start fsv rs bs suffix = .ran rs2 bs2 := by
  intro suffix
  induction suffix with
  | nil =>
    intro done2 rs bs _ _ _
    exact Or.inr ⟨rs, bs, rfl⟩
  | cons c0 rest ih =>
    intro done2 rs bs htrace hinvr hinvb
    obtain ⟨now, st⟩ := c0
    by_cases hg : now - start < p.observeTimeout
    case neg =>
      exact Or.inl (runCycles_cons_of_timeout p start fsv rs bs now st rest hg)
    case pos =>
    have htrace2 : trace = done2 ++ [(now, st)] ++ rest := by
      rw [htrace]
      simp
    have hrpack : timerFires p.rendererStable now
        (armTimer (rendererCond st) now rs) = false ∧
        (armTimer (rendererCond st) now rs = none ∨
          ∃ a pre1 mid1 s1, armTimer (rendererCond st) now rs = some a ∧
            done2 ++ [(now, st)] = pre1 ++ mid1 ∧
            (∀ c ∈ mid1, rendererCond c.2 = true) ∧
            mid1.head? = some (a, s1)) := by
      by_cases hcr : rendererCond st = true
      · rcases hinvr with hnone | ⟨a, pre1, mid1, s1, heq, hdone, hall1, hhead⟩
        · subst hnone
          have harm : armTimer (rendererCond st) now (none : Option ℚ) =
              some now := by simp [armTimer, hcr]
          have hsingle : ∀ c ∈ [((now : ℚ), st)], rendererCond c.2 = true := by
            intro c hc
            rw [List.mem_singleton.mp hc]
            exact hcr
          have hlt : now - now < p.rendererStable :=
            Hr done2 [(now, st)] rest htrace2 hsingle (now, st)
              (List.mem_singleton.mpr rfl) (now, st)
              (List.mem_singleton.mpr rfl)
          constructor
          · rw [harm]
            show (decide (now ≠ 0) &&
              decide (p.rendererStable ≤ now - now)) = false
            rw [decide_eq_false (not_le.mpr hlt), Bool.and_false]
          · exact Or.inr ⟨now, done2, [(now, st)], st, harm, rfl, hsingle, rfl⟩
        · subst heq
          have harm : armTimer (rendererCond st) now (some a) = some a := by
            simp [armTimer, hcr]
          cases mid1 with
          | nil => simp at hhead
          | cons m0 mtail =>
          simp only [List.head?_cons, Option.some.injEq] at hhead
          subst hhead
          have hdecomp : trace =
              pre1 ++ ((a, s1) :: (mtail ++ [(now, st)])) ++ rest := by
            rw [htrace, hdone]
            simp
          have hall2 : ∀ c ∈ (a, s1) :: (mtail ++ [(now, st)]),
              rendererCond c.2 = true := by
            intro c hc
            rcases List.mem_cons.mp hc with h | h
            · rw [h]
              exact hall1 _ (List.mem_cons_self _ _)
            · rcases List.mem_append.mp h with h2 | h2
              · exact hall1 c (List.mem_cons_of_mem _ h2)
              · rw [List.mem_singleton.mp h2]
                exact hcr
          have hlt : now - a < p.rendererStable :=
            Hr pre1 ((a, s1) :: (mtail ++ [(now, st)])) rest hdecomp hall2
              (now, st)
              (List.mem_cons_of_mem _
                (List.mem_append_right _ (List.mem_singleton.mpr rfl)))
              (a, s1) (List.mem_cons_self _ _)
          constructor
          · rw [harm]
            show (decide (a ≠ 0) &&
              decide (p.rendererStable ≤ now - a)) = false
            rw [decide_eq_false (not_le.mpr hlt), Bool.and_false]
          · refine Or.inr ⟨a, pre1, (a, s1) :: (mtail ++ [(now, st)]), s1,
              harm, ?_, hall2, rfl⟩
            rw [hdone]
            simp
      · have harm : armTimer (rendererCond st) now rs = none := by
          simp [armTimer, hcr]
        exact ⟨by rw [harm]; rfl, Or.inl harm⟩
    have hbpack : timerFires p.blackStable now
        (armTimer (blackCond st) now bs) = false ∧
        (armTimer (blackCond st) now bs = none ∨
          ∃ b pre2 mid2 s2, armTimer (blackCond st) now bs = some b ∧
            done2 ++ [(now, st)] = pre2 ++ mid2 ∧
            (∀ c ∈ mid2, blackCond c.2 = true) ∧
            mid2.head? = some (b, s2)) := by
      by_cases hcb : blackCond st = true
      · rcases hinvb with hnone | ⟨b, pre2, mid2, s2, heq, hdone, hall1, hhead⟩
        · subst hnone
          have harm : armTimer (blackCond st) now (none : Option ℚ) =
              some now := by simp [armTimer, hcb]
          have hsingle : ∀ c ∈ [((now : ℚ), st)], blackCond c.2 = true := by
            intro c hc
            rw [List.mem_singleton.mp hc]
            exact hcb
          have hlt : now - now < p.blackStable :=
            Hb done2 [(now, st)] rest htrace2 hsingle (now, st)
              (List.mem_singleton.mpr rfl) (now, st)
              (List.mem_singleton.mpr rfl)
          constructor
          · rw [harm]
            show (decide (now ≠ 0) &&
              decide (p.blackStable ≤ now - now)) = false
            rw [decide_eq_false (not_le.mpr hlt), Bool.and_false]
          · exact Or.inr ⟨now, done2, [(now, st)], st, harm, rfl, hsingle, rfl⟩
        · subst heq
          have harm : armTimer (blackCond st) now (some b) = some b := by
            simp [armTimer, hcb]
          cases mid2 with
          | nil => simp at hhead
          | cons m0 mtail =>
          simp only [List.head?_cons, Option.some.injEq] at hhead
          subst hhead
          have hdecomp : trace =
              pre2 ++ ((b, s2) :: (mtail ++ [(now, st)])) ++ rest := by
            rw [htrace, hdone]
            simp
          have hall2 : ∀ c ∈ (b, s2) :: (mtail ++ [(now, st)]),
              blackCond c.2 = true := by
            intro c hc
            rcases List.mem_cons.mp hc with h | h
            · rw [h]
              exact hall1 _ (List.mem_cons_self _ _)
            · rcases List.mem_append.mp h with h2 | h2
              · exact hall1 c (List.mem_cons_of_mem _ h2)
              · rw [List.mem_singleton.mp h2]
                exact hcb
          have hlt : now - b < p.blackStable :=
            Hb pre2 ((b, s2) :: (mtail ++ [(now, st)])) rest hdecomp hall2
              (now, st)
              (List.mem_cons_of_mem _
                (List.mem_append_right _ (List.mem_singleton.mpr rfl)))
              (b, s2) (List.mem_cons_self _ _)
          constructor
          · rw [harm]
            show (decide (b ≠ 0) &&
              decide (p.blackStable ≤ now - b)) = false
            rw [decide_eq_false (not_le.mpr hlt), Bool.and_false]
          · refine Or.inr ⟨b, pre2, (b, s2) :: (mtail ++ [(now, st)]), s2,
              harm, ?_, hall2, rfl⟩
            rw [hdone]
            simp
      · have harm : armTimer (blackCond st) now bs = none := by
          simp [armTimer, hcb]
        exact ⟨by rw [harm]; rfl, Or.inl harm⟩
    obtain ⟨hnor, hinvr2⟩ := hrpack
    obtain ⟨hnob, hinvb2⟩ := hbpack
    have hcheck : checkVerdicts p now st (armTimer (rendererCond st) now rs)
        (armTimer (blackCond st) now bs) = none := by
      unfold checkVerdicts
      rw [hnor, hnob]
      rfl
    rw [runCycles_cons_of_guard p start fsv rs bs now st rest hg, hcheck]
    exact ih (done2 ++ [(now, st)]) (armTimer (rendererCond st) now rs)
      (armTimer (blackCond st) now bs) htrace2 hinvr2 hinvb2

/-- C5.  If no contiguous renderer-true run of the trace spans
`renderer_stable_threshold` seconds and no contiguous black-true run spans
`black_pattern_stable_threshold` seconds, neither condition is ever
satisfied to its threshold, and `quick_probe` returns the `TIMEOUT`
verdict carrying the final observed role counts. -/
theorem C5_timeout_verdict (p : ProbeParams) (start : ℚ) (fsv : RoleCounts)
    (trace : List (ℚ × RoleCounts))
    (Hr : ∀ pre mid suf, trace = pre ++ mid ++ suf →
      (∀ c ∈ mid, rendererCond c.2 = true) →
      ∀ c ∈ mid, ∀ c0 ∈ mid, c.1 - c0.1 < p.rendererStable)
    (Hb : ∀ pre mid suf, trace = pre ++ mid ++ suf →
      (∀ c ∈ mid, blackCond c.2 = true) →
      ∀ c ∈ mid, ∀ c0 ∈ mid, c.1 - c0.1 < p.blackStable) :
    (quick_probe true p start trace fsv).verdict = .TIMEOUT fsv := by
  have h := no_long_run_timeout_aux p start fsv trace Hr Hb trace [] none none
    rfl (Or.inl rfl) (Or.inl rfl)
  show (⟨probeLoop p start trace fsv, true, true⟩ : ProbeRun).verdict = _
  simp only [probeLoop]
  rcases h with h | ⟨rs2, bs2, h⟩ <;> rw [h]

/-- In the C5 witness trace no renderer-true run exists at all. -/
theorem witness_timeout_Hr :
    ∀ pre mid suf : List (ℚ × RoleCounts),
      [((25 : ℚ), quiet)] = pre ++ mid ++ suf →
      (∀ c ∈ mid, rendererCond c.2 = true) →
      ∀ c ∈ mid, ∀ c0 ∈ mid, c.1 - c0.1 < pDefault.rendererStable := by
  intro pre mid suf heq hall c hc c0 hc0
  exfalso
  have hmem : c ∈ pre ++ mid ++ suf :=
    List.mem_append_left _ (List.mem_append_right _ hc)
  rw [← heq] at hmem
  have hcq : c = ((25 : ℚ), quiet) := List.mem_singleton.mp hmem
  have := hall c hc
  rw [hcq] at this
  simp [rendererCond, quiet] at this

/-- In the C5 witness trace no black-true run exists at all. -/
theorem witness_timeout_Hb :
    ∀ pre mid suf : List (ℚ × RoleCounts),
      [((25 : ℚ), quiet)] = pre ++ mid ++ suf →
      (∀ c ∈ mid, blackCond c.2 = true) →
      ∀ c ∈ mid, ∀ c0 ∈ mid, c.1 - c0.1 < pDefault.blackStable := by
  intro pre mid suf heq hall c hc c0 hc0
  exfalso
  have hmem : c ∈ pre ++ mid ++ suf :=
    List.mem_append_left _ (List.mem_append_right _ hc)
  rw [← heq] at hmem
  have hcq : c = ((25 : ℚ), quiet) := List.mem_singleton.mp hmem
  have := hall c hc
  rw [hcq] at this
  simp [blackCond, quiet] at this

/-- Witness for C5: a quiet poll at time 25 exceeds the 20-second budget,
and the verdict is `TIMEOUT` carrying the final snapshot (`blackSnap` here,
distinct from anything in the trace). -/
theorem C5_timeout_verdict_witness :
    (quick_probe true pDefault 0 [((25 : ℚ), quiet)] blackSnap).verdict =
      .TIMEOUT blackSnap :=
  C5_timeout_verdict pDefault 0 blackSnap [((25 : ℚ), quiet)]
    witness_timeout_Hr witness_timeout_Hb

end WandProbe
